import Mathlib

set_option maxHeartbeats 1000000
set_option maxRecDepth 10000

namespace PostcssModules

/-! Shallow embedding of the intrnl/postcss-modules transform.

The repository has two variant implementations of the same plugin:
src/index.js (selector handling through the repository-local parsel.js
parser, which is not present under src/) and the unnamed variant
src/unnamed/part_000 (selector handling through postcss-selector-parser).
The registry, composes, keyframes and animation logic is common to both
and is embedded once; the selector walkers are embedded separately.

JS strings are modelled as Lean String / List Char, JS objects used as
maps as insertion-ordered association lists, and the thrown postcss
errors as an Except error type. -/

/-- Composition Reference: the res object built by the composes handler
(src/index.js lines 78-88). The tag is the type field of the source. -/
inductive CompRef where
  | local_ (name : String) (localName : String)
  | global (name : String)
  | dependency (name : String) (specifier : String)
deriving DecidableEq

/-- Identifier Entry: the object stored in the locals table by
retrieveLocal, holding the generated name and the composition list. The
source field named local is spelled local_ here (Lean keyword). -/
structure Entry where
  local_ : String
  composes : List CompRef
deriving DecidableEq

/-- The locals table of one transform invocation (src/index.js line 37).
The source creates it with Object.create(null); proto records whether
the object would carry the Object.prototype chain (false for this
program), entries are its own keys in insertion order and index is the
ordinal counter passed to generateScopedName (src/index.js line 38). -/
structure Locals where
  proto : Bool
  entries : List (String × Entry)
  index : Nat
deriving DecidableEq

/-- The locals table as the program creates it: Object.create(null),
no prototype, no keys, ordinal counter 0. -/
def initLocals : Locals := ⟨false, [], 0⟩

/-- Own-key lookup in the association list backing the locals object. -/
def findEntry : List (String × Entry) → String → Option Entry
  | [], _ => none
  | (k, e) :: rest, name => if k = name then some e else findEntry rest name

/-- Member names every default JS object inherits from Object.prototype.
A plain object literal would answer true to the in operator for each of
these even when no such key was ever stored. -/
def protoMembers : List String :=
  ["constructor", "toString", "toLocaleString", "valueOf", "hasOwnProperty",
   "isPrototypeOf", "propertyIsEnumerable", "__proto__"]

/-- The JS in operator applied to the locals table: true on own keys,
and on the Object.prototype member names when the object has the default
prototype chain. Object.create(null) makes proto false. -/
def jsIn (st : Locals) (key : String) : Bool :=
  (findEntry st.entries key).isSome || (st.proto && protoMembers.contains key)

/-- Type of the generateScopedName strategy: original name, source file
path (root.source?.input.file, possibly absent) and ordinal index. -/
abbrev Gen := String → Option String → Nat → String

/-- retrieveLocal (src/index.js lines 195-200): locals[name] ||= a fresh
entry whose local is generateScopedName(name, file, index++) and whose
composes list is empty. Returns the entry together with the table. -/
def retrieveLocal (gen : Gen) (file : Option String) (name : String) (st : Locals) :
    Entry × Locals :=
  match findEntry st.entries name with
  | some e => (e, st)
  | none =>
      let e : Entry := ⟨gen name file st.index, []⟩
      (e, ⟨st.proto, st.entries ++ [(name, e)], st.index + 1⟩)

/-- One step of the JS String.split on the regex of one-or-more
whitespace characters: cur is some t while a token t is being built and
none while inside a whitespace run whose preceding piece was already
emitted. Matches JS in emitting an empty leading piece when the string
starts with whitespace and an empty trailing piece when it ends with
one. -/
def splitWsGo : List Char → Option String → List String
  | [], cur => [cur.getD ""]
  | c :: cs, cur =>
      if c.isWhitespace then
        match cur with
        | some t => t :: splitWsGo cs none
        | none => splitWsGo cs none
      else splitWsGo cs (some ((cur.getD "").push c))

/-- JS decl.value.split on one-or-more whitespace (src/index.js line 102). -/
def jsSplitWs (s : String) : List String := splitWsGo s.toList (some "")

/-- The per-token body of the animation shorthand loop (src/index.js
lines 104-110): when value in locals, the token becomes
locals[value].local; otherwise it is kept. The "undefined" branch is
reachable only on a prototype-carrying table, where the JS property read
of an inherited member has no local field. -/
def animTok (st : Locals) (value : String) : String :=
  if jsIn st value then
    match findEntry st.entries value with
    | some e => e.local_
    | none => "undefined"
  else value

/-- The walkDecls handler for declarations whose property matches
^animation (src/index.js lines 96-114): animation-name is wholly
replaced through retrieveLocal, the animation shorthand is split on
whitespace, mapped tokenwise and rejoined with single spaces, and any
other animation-* declaration is untouched. Returns the new value and
the table. -/
def animationHandler (gen : Gen) (file : Option String) (prop value : String)
    (st : Locals) : String × Locals :=
  if prop = "animation-name" then
    let r := retrieveLocal gen file value st
    (r.1.local_, r.2)
  else if prop = "animation" then
    (String.intercalate " " ((jsSplitWs value).map (animTok st)), st)
  else (value, st)

/-! Scoped-name generation (src/index.js lines 9-16). The source feeds
path.relative of the filename through the Node crypto MD5 hash and takes
the first six characters of the base64url digest. MD5 and base64url are
fixed published algorithms implemented by the platform; they are
implemented here concretely over byte lists so the generator is
executable. path.relative is platform code as well and is threaded
through as an explicit function argument. -/

/-- Truncation to a 32-bit word. -/
def w32 (n : Nat) : Nat := n % 4294967296

/-- Bitwise complement within 32 bits. -/
def n32 (n : Nat) : Nat := n ^^^ 4294967295

/-- Left rotation of a 32-bit word. -/
def rotl32 (x s : Nat) : Nat := w32 (x <<< s) ||| (x >>> (32 - s))

/-- The 64 MD5 sine-derived constants. -/
def md5K : List Nat :=
  [0xd76aa478, 0xe8c7b756, 0x242070db, 0xc1bdceee,
   0xf57c0faf, 0x4787c62a, 0xa8304613, 0xfd469501,
   0x698098d8, 0x8b44f7af, 0xffff5bb1, 0x895cd7be,
   0x6b901122, 0xfd987193, 0xa679438e, 0x49b40821,
   0xf61e2562, 0xc040b340, 0x265e5a51, 0xe9b6c7aa,
   0xd62f105d, 0x02441453, 0xd8a1e681, 0xe7d3fbc8,
   0x21e1cde6, 0xc33707d6, 0xf4d50d87, 0x455a14ed,
   0xa9e3e905, 0xfcefa3f8, 0x676f02d9, 0x8d2a4c8a,
   0xfffa3942, 0x8771f681, 0x6d9d6122, 0xfde5380c,
   0xa4beea44, 0x4bdecfa9, 0xf6bb4b60, 0xbebfbc70,
   0x289b7ec6, 0xeaa127fa, 0xd4ef3085, 0x04881d05,
   0xd9d4d039, 0xe6db99e5, 0x1fa27cf8, 0xc4ac5665,
   0xf4292244, 0x432aff97, 0xab9423a7, 0xfc93a039,
   0x655b59c3, 0x8f0ccc92, 0xffeff47d, 0x85845dd1,
   0x6fa87e4f, 0xfe2ce6e0, 0xa3014314, 0x4e0811a1,
   0xf7537e82, 0xbd3af235, 0x2ad7d2bb, 0xeb86d391]

/-- The 64 MD5 per-step rotation amounts. -/
def md5S : List Nat :=
  [7, 12, 17, 22, 7, 12, 17, 22, 7, 12, 17, 22, 7, 12, 17, 22,
   5, 9, 14, 20, 5, 9, 14, 20, 5, 9, 14, 20, 5, 9, 14, 20,
   4, 11, 16, 23, 4, 11, 16, 23, 4, 11, 16, 23, 4, 11, 16, 23,
   6, 10, 15, 21, 6, 10, 15, 21, 6, 10, 15, 21, 6, 10, 15, 21]

/-- MD5 message word index for step i. -/
def md5G (i : Nat) : Nat :=
  if i < 16 then i
  else if i < 32 then (5 * i + 1) % 16
  else if i < 48 then (3 * i + 5) % 16
  else (7 * i) % 16

/-- MD5 nonlinear round function for step i. -/
def md5F (i b c d : Nat) : Nat :=
  if i < 16 then (b &&& c) ||| (n32 b &&& d)
  else if i < 32 then (b &&& d) ||| (c &&& n32 d)
  else if i < 48 then b ^^^ c ^^^ d
  else c ^^^ (b ||| n32 d)

/-- One MD5 step on the (a, b, c, d) state given the 16 message words. -/
def md5Step (m : List Nat) (st : Nat × Nat × Nat × Nat) (i : Nat) :
    Nat × Nat × Nat × Nat :=
  let a := st.1
  let b := st.2.1
  let c := st.2.2.1
  let d := st.2.2.2
  let t := w32 (md5F i b c d + a + md5K.getD i 0 + m.getD (md5G i) 0)
  (d, w32 (b + rotl32 t (md5S.getD i 0)), b, c)

/-- Four little-endian bytes into a 32-bit word. -/
def bytesToW32LE : List Nat → List Nat
  | b0 :: b1 :: b2 :: b3 :: rest =>
      (b0 ||| (b1 <<< 8) ||| (b2 <<< 16) ||| (b3 <<< 24)) :: bytesToW32LE rest
  | _ => []

/-- A 32-bit word into four little-endian bytes. -/
def w32ToLE (x : Nat) : List Nat :=
  [x % 256, (x >>> 8) % 256, (x >>> 16) % 256, (x >>> 24) % 256]

/-- MD5 padding: a 0x80 byte, zeros to 56 mod 64, then the bit length as
eight little-endian bytes. -/
def md5Pad (msg : List Nat) : List Nat :=
  let len := msg.length
  msg ++ [0x80] ++ List.replicate ((56 + 64 - (len + 1) % 64) % 64) 0 ++
    (List.range 8).map (fun i => ((8 * len) >>> (8 * i)) % 256)

/-- Split a byte list into chunks of 64; the fuel argument, initialized
to the list length, only bounds the recursion (each step consumes at
least one element). -/
def chunks64Go : Nat → List Nat → List (List Nat)
  | 0, _ => []
  | _ + 1, [] => []
  | fuel + 1, c :: rest => ((c :: rest).take 64) :: chunks64Go fuel ((c :: rest).drop 64)

/-- Split a byte list into chunks of 64. -/
def chunks64 (l : List Nat) : List (List Nat) := chunks64Go l.length l

/-- One 64-byte MD5 block folded into the running state. -/
def md5Block (st : Nat × Nat × Nat × Nat) (blk : List Nat) :
    Nat × Nat × Nat × Nat :=
  let m := bytesToW32LE blk
  let r := (List.range 64).foldl (md5Step m) st
  (w32 (st.1 + r.1), w32 (st.2.1 + r.2.1), w32 (st.2.2.1 + r.2.2.1),
   w32 (st.2.2.2 + r.2.2.2))

/-- The MD5 initial state. -/
def md5Init : Nat × Nat × Nat × Nat :=
  (0x67452301, 0xefcdab89, 0x98badcfe, 0x10325476)

/-- The 16-byte MD5 digest of a byte list. -/
def md5Bytes (msg : List Nat) : List Nat :=
  let st := (chunks64 (md5Pad msg)).foldl md5Block md5Init
  w32ToLE st.1 ++ w32ToLE st.2.1 ++ w32ToLE st.2.2.1 ++ w32ToLE st.2.2.2

/-- UTF-8 encoding of one character as bytes, the byte view Node hashes
when given a JS string. -/
def charUtf8 (c : Char) : List Nat :=
  let n := c.toNat
  if n < 0x80 then [n]
  else if n < 0x800 then [0xc0 ||| (n >>> 6), 0x80 ||| (n &&& 0x3f)]
  else if n < 0x10000 then
    [0xe0 ||| (n >>> 12), 0x80 ||| ((n >>> 6) &&& 0x3f), 0x80 ||| (n &&& 0x3f)]
  else
    [0xf0 ||| (n >>> 18), 0x80 ||| ((n >>> 12) &&& 0x3f),
     0x80 ||| ((n >>> 6) &&& 0x3f), 0x80 ||| (n &&& 0x3f)]

/-- UTF-8 bytes of a string. -/
def utf8Bytes (s : String) : List Nat := (s.toList.map charUtf8).flatten

/-- The base64url alphabet. -/
def b64Char (n : Nat) : Char :=
  ("ABCDEFGHIJKLMNOPQRSTUVWXYZabcdefghijklmnopqrstuvwxyz0123456789-_").toList.getD n 'A'

/-- base64url rendering of a byte list, without padding characters, as
Node digest with the base64url encoding produces. -/
def base64url : List Nat → List Char
  | b0 :: b1 :: b2 :: rest =>
      b64Char (b0 >>> 2) :: b64Char (((b0 &&& 3) <<< 4) ||| (b1 >>> 4)) ::
      b64Char (((b1 &&& 15) <<< 2) ||| (b2 >>> 6)) :: b64Char (b2 &&& 63) ::
      base64url rest
  | [b0, b1] =>
      [b64Char (b0 >>> 2), b64Char (((b0 &&& 3) <<< 4) ||| (b1 >>> 4)),
       b64Char ((b1 &&& 15) <<< 2)]
  | [b0] => [b64Char (b0 >>> 2), b64Char ((b0 &&& 3) <<< 4)]
  | [] => []

/-- base64url MD5 digest of a string: crypto.createHash of md5, update
with the string, digest with base64url. -/
def md5Base64url (s : String) : String := String.mk (base64url (md5Bytes (utf8Bytes s)))

/-- generateLongScopedName (src/index.js lines 9-16). The hash input is
path.relative of the filename when the filename is truthy and the empty
string otherwise; relative is the path.relative function of the
platform, threaded as an argument. The ordinal index parameter is
accepted and ignored exactly as in the source. -/
def generateLongScopedName (relative : String → String) (local_ : String)
    (filename : Option String) (index : Nat) : String :=
  let input :=
    match filename with
    | some f => if f = "" then "" else relative f
    | none => ""
  let digest := md5Base64url input
  local_ ++ "_" ++ digest.take 6

/-! The composes declaration (src/index.js lines 45-94). COMPOSES_RE
(line 7) is an anchored regex; it is translated here into an executable
matcher over character lists. JS regex whitespace is modelled by
Char.isWhitespace and the dot of the regex, which matches every
character except a line terminator, by the explicit line-terminator
test below. -/

/-- The postcss errors the transform can throw. -/
inductive TransformErr where
  | nestedRule
  | complexSelector
  | invalidComposes
  | invalidScopePseudo
deriving DecidableEq

/-- Negation of the whitespace class, the character class of the name
group of COMPOSES_RE. -/
def notWs (c : Char) : Bool := !c.isWhitespace

/-- The quote group class of COMPOSES_RE: a single quote (character 39)
or a double quote (character 34). -/
def isQuoteChar (c : Char) : Bool := c = Char.ofNat 39 || c = Char.ofNat 34

/-- JS regex line terminators, the characters the regex dot refuses. -/
def isLineTerm (c : Char) : Bool :=
  c = '\n' || c = '\r' || c.toNat = 0x2028 || c.toNat = 0x2029

/-- The named groups of a successful COMPOSES_RE match, with the quotes
already stripped from the quoted specifier (the slice(1, -1) of
src/index.js line 84). -/
inductive ComposesMatch where
  | plain (name : List Char)
  | fromGlobal (name : List Char)
  | fromQuoted (name : List Char) (quote : Char) (body : List Char)
deriving DecidableEq

/-- The specifier alternation of COMPOSES_RE: the literal global, or a
quote, one or more non-line-terminator characters, and the same quote,
all of it reaching the end of the value. -/
def matchSpecifier (name spec : List Char) : Option ComposesMatch :=
  if spec = "global".toList then some (.fromGlobal name)
  else
    match spec with
    | q :: rest =>
        if isQuoteChar q && rest.getLast? = some q && !rest.dropLast.isEmpty
            && rest.dropLast.all (fun c => !isLineTerm c) then
          some (.fromQuoted name q rest.dropLast)
        else none
    | [] => none

/-- Executable translation of COMPOSES_RE.exec on the whole declaration
value: a nonempty run of non-whitespace characters is the name; it is
either the whole value, or is followed by whitespace, the literal from,
whitespace and the specifier alternation. -/
def composesExec (v : List Char) : Option ComposesMatch :=
  let name := v.takeWhile notWs
  let rest := v.dropWhile notWs
  if name.isEmpty then none
  else if rest.isEmpty then some (.plain name)
  else
    let rest1 := rest.dropWhile Char.isWhitespace
    if rest1.take 4 = "from".toList then
      let rest2 := rest1.drop 4
      match rest2 with
      | c :: _ =>
          if c.isWhitespace then matchSpecifier name (rest2.dropWhile Char.isWhitespace)
          else none
      | [] => none
    else none

/-- A nonempty all-non-whitespace character list: the shape the claimed
grammar gives the composes name. -/
def NameChars (name : List Char) : Prop :=
  name ≠ [] ∧ ∀ c ∈ name, c.isWhitespace = false

/-- A nonempty all-whitespace character list: a separator of the claimed
grammar. -/
def WsChars (w : List Char) : Prop :=
  w ≠ [] ∧ ∀ c ∈ w, c.isWhitespace = true

/-- The composes value grammar exactly as the specification words it: a
non-whitespace name alone, or followed by from global, or followed by
from and a specifier wrapped in matching single or double quotes. This
definition follows the wording of the specification, to be compared
with composesExec, which is translated from COMPOSES_RE. -/
def ComposesGrammarSpec (v : List Char) : Prop :=
  NameChars v ∨
  (∃ name w1 w2, NameChars name ∧ WsChars w1 ∧ WsChars w2 ∧
    v = name ++ w1 ++ "from".toList ++ w2 ++ "global".toList) ∨
  (∃ name w1 w2 q body, NameChars name ∧ WsChars w1 ∧ WsChars w2 ∧
    isQuoteChar q = true ∧ body ≠ [] ∧
    v = name ++ w1 ++ "from".toList ++ w2 ++ (q :: (body ++ [q])))

/-- The composes value grammar amended to what COMPOSES_RE accepts: as
ComposesGrammarSpec, with the quoted specifier body additionally free of
line terminator characters (the regex dot never matches those). -/
def ComposesGrammarAmended (v : List Char) : Prop :=
  NameChars v ∨
  (∃ name w1 w2, NameChars name ∧ WsChars w1 ∧ WsChars w2 ∧
    v = name ++ w1 ++ "from".toList ++ w2 ++ "global".toList) ∨
  (∃ name w1 w2 q body, NameChars name ∧ WsChars w1 ∧ WsChars w2 ∧
    isQuoteChar q = true ∧ body ≠ [] ∧ (∀ c ∈ body, isLineTerm c = false) ∧
    v = name ++ w1 ++ "from".toList ++ w2 ++ (q :: (body ++ [q])))

/-- Appending a reference to the composes list of the entry stored under
name, the local.composes.push(res) of src/index.js line 92: the entry
object returned by retrieveLocal is the one stored in the table, so the
push is visible in the table. -/
def pushComposes (st : Locals) (name : String) (res : CompRef) : Locals :=
  ⟨st.proto,
   st.entries.map (fun p =>
     if p.1 = name then (p.1, ⟨p.2.local_, p.2.composes ++ [res]⟩) else p),
   st.index⟩

/-- The for-of loop of src/index.js lines 90-93: for every collected
selector name, retrieveLocal it (creating the entry when needed) and
push the reference onto its composes list. -/
def composeIntoNames (gen : Gen) (file : Option String) (res : CompRef) :
    List String → Locals → Locals
  | [], st => st
  | n :: rest, st =>
      let r := retrieveLocal gen file n st
      composeIntoNames gen file res rest (pushComposes r.2 n res)

/-- The composes declaration handler from the selector-names check
onward (src/index.js lines 58-93): fail when the owning selector did
not reduce to simple class or id names, fail when COMPOSES_RE rejects
the value, otherwise build the three-way reference (registering the
referenced name only in the local case) and append it under every
selector name. -/
def composesDecl (gen : Gen) (file : Option String) (names : Option (List String))
    (value : String) (st : Locals) : Except TransformErr Locals :=
  match names with
  | none => .error .complexSelector
  | some ns =>
      match composesExec value.toList with
      | none => .error .invalidComposes
      | some m =>
          match m with
          | .fromGlobal name =>
              .ok (composeIntoNames gen file (CompRef.global (String.mk name)) ns st)
          | .fromQuoted name _ body =>
              .ok (composeIntoNames gen file
                (CompRef.dependency (String.mk name) (String.mk body)) ns st)
          | .plain name =>
              let r := retrieveLocal gen file (String.mk name) st
              .ok (composeIntoNames gen file
                (CompRef.local_ (String.mk name) r.1.local_) ns r.2)

/-! Selector AST of the src/index.js variant. The parser parsel.js the
file requires is not under src/; the node shapes are modelled from the
specification data model (type, class, id, attribute, pseudo-class,
pseudo-element, compound, complex, list), which is exactly the set of
type tags src/index.js dispatches on. Modelled from the spec: for the
selector-accepting pseudo-classes the parsed form of the argument string
is carried on the node as the subtree field; the walker reads it where
the source calls parsel.parse on node.argument, and the stringifier
reads it where the source reads node.subtree. -/

inductive Sel where
  | typ (name : String)
  | cls (name : String)
  | id (name : String)
  | attr (name : String) (operator : Option String) (value : String)
  | pseudoElement (name : String) (argument : Option String) (subtree : Option Sel)
  | pseudoClass (name : String) (argument : Option String) (subtree : Option Sel)
  | complex (left : Sel) (combinator : String) (right : Sel)
  | compound (list : List Sel)
  | list (list : List Sel)

/-- Whether a node is a comma list, the args.type test of src/index.js
line 138. -/
def isList : Sel → Bool
  | .list _ => true
  | _ => false

/-- Whether a node is a class or id node, the test of the walker and of
retrieveSelectorNames. -/
def isClassOrId : Sel → Bool
  | .cls _ => true
  | .id _ => true
  | _ => false

/-- The name field of a node, read by retrieveSelectorNames when it
pushes child.name. -/
def selName : Sel → String
  | .typ n => n
  | .cls n => n
  | .id n => n
  | .attr n _ _ => n
  | .pseudoElement n _ _ => n
  | .pseudoClass n _ _ => n
  | _ => ""

mutual

/-- The stringifier of src/index.js lines 232-290, one case per node
type. Note the id case renders a dot prefix, the same rendering as the
class case, and the pseudo-element subtree case renders the subtree
without parentheses, both exactly as in the source. -/
def stringify : Sel → String
  | .typ name => name
  | .cls name => "." ++ name
  | .id name => "." ++ name
  | .attr name op value =>
      match op with
      | some o => "[" ++ name ++ o ++ value ++ "]"
      | none => "[" ++ name ++ "]"
  | .pseudoElement name arg sub =>
      match sub with
      | some s => "::" ++ name ++ stringify s
      | none =>
          match arg with
          | some a => "::" ++ name ++ "(" ++ a ++ ")"
          | none => "::" ++ name
  | .pseudoClass name arg sub =>
      match sub with
      | some s => ":" ++ name ++ "(" ++ stringify s ++ ")"
      | none =>
          match arg with
          | some a => ":" ++ name ++ "(" ++ a ++ ")"
          | none => ":" ++ name
  | .complex l c r => stringify l ++ c ++ stringify r
  | .list xs => String.intercalate "," (stringifyList xs)
  | .compound xs => String.join (stringifyList xs)

/-- Stringification of the children of a list or compound node. -/
def stringifyList : List Sel → List String
  | [] => []
  | x :: xs => stringify x :: stringifyList xs

end

mutual

/-- The selector walker of src/index.js lines 127-185 as a recursive
transformation. The marked flag is true exactly on the nodes the source
walk has added to the globals weak set: markAsGlobal is walked over the
whole parsed argument of a global pseudo before that argument replaces
the pseudo in its parent slot, so being marked is hereditary through
complex, compound and list children of such an argument, while the
freshly parsed argument of a nested scope pseudo is marked again only
when that pseudo is itself global. A local or global pseudo-class whose
argument has no parse fails, as does one whose argument parses to a
comma list; otherwise the transformed argument replaces the pseudo.
Unmarked class and id nodes are renamed through retrieveLocal; every
other node is left as is (the walker never enters the opaque argument
strings of other pseudo-classes). -/
def walkTransform (gen : Gen) (file : Option String) (marked : Bool) :
    Sel → Locals → Except TransformErr (Sel × Locals)
  | .pseudoClass name arg sub, st =>
      if name = "local" || name = "global" then
        match sub with
        | none => .error .invalidScopePseudo
        | some args =>
            if isList args then .error .invalidScopePseudo
            else walkTransform gen file (name = "global") args st
      else .ok (.pseudoClass name arg sub, st)
  | .cls name, st =>
      if marked then .ok (.cls name, st)
      else
        let r := retrieveLocal gen file name st
        .ok (.cls r.1.local_, r.2)
  | .id name, st =>
      if marked then .ok (.id name, st)
      else
        let r := retrieveLocal gen file name st
        .ok (.id r.1.local_, r.2)
  | .complex l c r, st => do
      let l2 ← walkTransform gen file marked l st
      let r2 ← walkTransform gen file marked r l2.2
      .ok (.complex l2.1 c r2.1, r2.2)
  | .compound xs, st => do
      let ys ← walkTransformList gen file marked xs st
      .ok (.compound ys.1, ys.2)
  | .list xs, st => do
      let ys ← walkTransformList gen file marked xs st
      .ok (.list ys.1, ys.2)
  | n, st => .ok (n, st)

/-- The walker over the children of a compound or list node, in
document order, threading the locals table. -/
def walkTransformList (gen : Gen) (file : Option String) (marked : Bool) :
    List Sel → Locals → Except TransformErr (List Sel × Locals)
  | [], st => .ok ([], st)
  | x :: xs, st => do
      let y ← walkTransform gen file marked x st
      let ys ← walkTransformList gen file marked xs y.2
      .ok (y.1 :: ys.1, ys.2)

end

/-- The composes loop body of retrieveSelectorNames in src/index.js
lines 205-213. The loop iterates over the children of a list node but
tests node.type, the type of the list itself, rather than child.type;
the test is therefore false on every iteration and the first child makes
the function return false. The node argument here is the list node
passed through unchanged, mirroring the source. -/
def retrieveSelectorNamesGo (node : Sel) : List Sel → Option (List String)
  | [] => some []
  | child :: rest =>
      if isClassOrId node then (retrieveSelectorNamesGo node rest).map (selName child :: ·)
      else none

/-- retrieveSelectorNames of src/index.js lines 202-223: a class or id
node yields its own name, a list node runs the buggy loop above, and
everything else is rejected. The JS false return is modelled as none
(the source only ever tests the result for truthiness; the empty array
a childless list would return is truthy in JS and is modelled as
some []). -/
def retrieveSelectorNamesIdx : Sel → Option (List String)
  | .list children => retrieveSelectorNamesGo (.list children) children
  | n => if isClassOrId n then some [selName n] else none

/-- The composes walkDecls handler of the src/index.js variant from the
selector parse onward: collect the selector names with the
retrieveSelectorNames of that file, then run the shared composes logic. -/
def composesHandlerIdx (gen : Gen) (file : Option String) (ruleSel : Sel)
    (value : String) (st : Locals) : Except TransformErr Locals :=
  composesDecl gen file (retrieveSelectorNamesIdx ruleSel) value st

/-! The unnamed variant src/unnamed/part_000 drives the same transform
through postcss-selector-parser. In that AST a root holds a list of
selectors, a selector holds a list of nodes, and a pseudo node holds the
list of selectors of its parenthesized argument: a bare pseudo holds no
selector, an empty pair of parentheses holds one empty selector. A
selector is modelled as a plain node list; nested is a selector node
sitting in the node list of another selector, which is the shape
node.replaceWith(selector) leaves behind. -/

inductive PNode where
  | pseudo (value : String) (nodes : List (List PNode))
  | cls (value : String)
  | id (value : String)
  | nested (nodes : List PNode)
  | other (value : String)

mutual

/-- transformSelectors of src/unnamed/part_000 lines 121-172, expressed
as a recursive transformation of one selector node list. The inGlobal
flag is true exactly when the list is a selector the source has added to
the globals weak set, which guards only the class and id nodes directly
inside that selector. A scope pseudo with no argument selector is not a
call and is kept; one with several argument selectors, or whose single
argument selector is empty, fails; otherwise the argument selector
replaces the pseudo in the node list, and the walk visits its children
with their parent marked when the pseudo was global. The walk also
descends into the argument selectors of every other pseudo, whose
children are guarded by their own unmarked parent selector; the seen
weak set of the source only prevents the double visit the in-place
mutation would cause and has no counterpart in this recursion, which
visits each node once. -/
def transformNodes (gen : Gen) (file : Option String) (inGlobal : Bool) :
    List PNode → Locals → Except TransformErr (List PNode × Locals)
  | [], st => .ok ([], st)
  | PNode.pseudo v args :: rest, st =>
      if v = ":local" || v = ":global" then
        match args with
        | [] => do
            let r ← transformNodes gen file inGlobal rest st
            .ok (PNode.pseudo v [] :: r.1, r.2)
        | [sel] =>
            if sel.isEmpty then .error .invalidScopePseudo
            else do
              let s ← transformNodes gen file (v = ":global") sel st
              let r ← transformNodes gen file inGlobal rest s.2
              .ok (PNode.nested s.1 :: r.1, r.2)
        | _ => .error .invalidScopePseudo
      else do
        let a ← transformArgSelectors gen file args st
        let r ← transformNodes gen file inGlobal rest a.2
        .ok (PNode.pseudo v a.1 :: r.1, r.2)
  | PNode.cls v :: rest, st =>
      if inGlobal then do
        let r ← transformNodes gen file inGlobal rest st
        .ok (PNode.cls v :: r.1, r.2)
      else do
        let e := retrieveLocal gen file v st
        let r ← transformNodes gen file inGlobal rest e.2
        .ok (PNode.cls e.1.local_ :: r.1, r.2)
  | PNode.id v :: rest, st =>
      if inGlobal then do
        let r ← transformNodes gen file inGlobal rest st
        .ok (PNode.id v :: r.1, r.2)
      else do
        let e := retrieveLocal gen file v st
        let r ← transformNodes gen file inGlobal rest e.2
        .ok (PNode.id e.1.local_ :: r.1, r.2)
  | PNode.nested ns :: rest, st => do
      let s ← transformNodes gen file false ns st
      let r ← transformNodes gen file inGlobal rest s.2
      .ok (PNode.nested s.1 :: r.1, r.2)
  | PNode.other v :: rest, st => do
      let r ← transformNodes gen file inGlobal rest st
      .ok (PNode.other v :: r.1, r.2)

/-- The walk through the argument selectors of a non-scope pseudo, each
of which is an unmarked parent selector for its children. -/
def transformArgSelectors (gen : Gen) (file : Option String) :
    List (List PNode) → Locals → Except TransformErr (List (List PNode) × Locals)
  | [], st => .ok ([], st)
  | sel :: rest, st => do
      let s ← transformNodes gen file false sel st
      let r ← transformArgSelectors gen file rest s.2
      .ok (s.1 :: r.1, r.2)

end

/-- The top of the part_000 rule walk: every selector of the root is
transformed with an unmarked parent. -/
def transformRoot (gen : Gen) (file : Option String) :
    List (List PNode) → Locals → Except TransformErr (List (List PNode) × Locals)
  | [], st => .ok ([], st)
  | sel :: rest, st => do
      let s ← transformNodes gen file false sel st
      let r ← transformRoot gen file rest s.2
      .ok (s.1 :: r.1, r.2)

/-- retrieveSelectorNames of src/unnamed/part_000 lines 181-199: every
selector of the root must consist of exactly one node, which must be a
class or id node; its value is collected. -/
def retrieveSelectorNamesP0 : List (List PNode) → Option (List String)
  | [] => some []
  | sel :: rest =>
      match sel with
      | [PNode.cls v] => (retrieveSelectorNamesP0 rest).map (v :: ·)
      | [PNode.id v] => (retrieveSelectorNamesP0 rest).map (v :: ·)
      | _ => none

/-- The composes walkDecls handler of the part_000 variant from the
selector parse onward. -/
def composesHandlerP0 (gen : Gen) (file : Option String)
    (ruleSel : List (List PNode)) (value : String) (st : Locals) :
    Except TransformErr Locals :=
  composesDecl gen file (retrieveSelectorNamesP0 ruleSel) value st

/-- The default naming strategy exactly as the plugin wires it
(src/index.js line 32): generateLongScopedName, with the platform
path.relative specialized to the identity function; its behavior is
irrelevant whenever no filename is supplied. -/
def defaultGen : Gen := generateLongScopedName id

/-! Helper lemmas about the association list behind the locals table. -/

theorem findEntry_none_not_mem (l : List (String × Entry)) (name : String)
    (h : findEntry l name = none) : name ∉ l.map Prod.fst := by
  induction l with
  | nil => simp
  | cons p rest ih =>
      rw [findEntry] at h
      by_cases hk : p.1 = name
      · simp [hk] at h
      · simp [hk] at h
        simpa [hk, Ne.symm hk] using ih h

theorem findEntry_append (l1 l2 : List (String × Entry)) (name : String) :
    findEntry (l1 ++ l2) name =
      (findEntry l1 name).elim (findEntry l2 name) some := by
  induction l1 with
  | nil => simp [findEntry]
  | cons p rest ih =>
      by_cases hk : p.1 = name
      · simp [findEntry, hk]
      · simp [findEntry, hk, ih]

theorem findEntry_self_append (l : List (String × Entry)) (name : String)
    (e : Entry) (h : findEntry l name = none) :
    findEntry (l ++ [(name, e)]) name = some e := by
  rw [findEntry_append, h]
  simp [findEntry]

/-- C4: retrieveLocal is idempotent per name within one run: a second
lookup of the same name returns an entry with the same generated local
and leaves the table exactly as the first call left it, so no composes
entry accumulated so far is discarded or reordered; and it keeps the
table free of duplicate keys, so at most one Identifier Entry exists per
distinct original name. -/
theorem retrieveLocal_idempotent (gen : Gen) (file : Option String)
    (name : String) (st : Locals) :
    ((retrieveLocal gen file name (retrieveLocal gen file name st).2).1.local_ =
      (retrieveLocal gen file name st).1.local_) ∧
    ((retrieveLocal gen file name (retrieveLocal gen file name st).2).2 =
      (retrieveLocal gen file name st).2) ∧
    ((st.entries.map Prod.fst).Nodup →
      ((retrieveLocal gen file name st).2.entries.map Prod.fst).Nodup) := by
  rcases h : findEntry st.entries name with _ | e
  · have hfind : findEntry (st.entries ++ [(name, ⟨gen name file st.index, []⟩)]) name =
        some ⟨gen name file st.index, []⟩ := findEntry_self_append _ _ _ h
    refine ⟨?_, ?_, ?_⟩
    · simp [retrieveLocal, h, hfind]
    · simp [retrieveLocal, h, hfind]
    · intro hnodup
      have hnm := findEntry_none_not_mem st.entries name h
      simp [retrieveLocal, h, List.nodup_append, hnodup, hnm]
  · exact ⟨by simp [retrieveLocal, h], by simp [retrieveLocal, h],
      fun hnodup => by simpa [retrieveLocal, h] using hnodup⟩

/-- Witness for retrieveLocal_idempotent at a concrete input. -/
theorem retrieveLocal_idempotent_witness :
    ((retrieveLocal defaultGen none "foo" initLocals).2.entries.map Prod.fst).Nodup :=
  (retrieveLocal_idempotent defaultGen none "foo" initLocals).2.2 (by simp [initLocals])

/-- C9: the stringifier renders an id selector node as a dot followed by
the name of the node, which is the same rendering it gives a class node,
rather than a hash prefix. -/
theorem stringify_id_dot (name : String) :
    stringify (Sel.id name) = "." ++ name ∧
    stringify (Sel.id name) = stringify (Sel.cls name) :=
  ⟨rfl, rfl⟩

/-- C1: on the rule selector .a, .b the retrieveSelectorNames of
src/index.js returns false, because its loop tests the type of the list
node itself instead of the type of each child, so the composes handler
of that file fails with the complex-selector error against the intent
stated in its own comment; the part_000 variant collects both branch
names and appends the built composition reference to the entries of
both, creating them as needed. -/
theorem comma_list_composes_bug :
    retrieveSelectorNamesIdx (Sel.list [Sel.cls "a", Sel.cls "b"]) = none ∧
    (∀ gen file value st, composesHandlerIdx gen file
      (Sel.list [Sel.cls "a", Sel.cls "b"]) value st = .error .complexSelector) ∧
    retrieveSelectorNamesP0 [[PNode.cls "a"], [PNode.cls "b"]] = some ["a", "b"] ∧
    composesHandlerP0 defaultGen none [[PNode.cls "a"], [PNode.cls "b"]] "foo" initLocals =
      .ok ⟨false,
        [("foo", ⟨"foo_1B2M2Y", []⟩),
         ("a", ⟨"a_1B2M2Y", [CompRef.local_ "foo" "foo_1B2M2Y"]⟩),
         ("b", ⟨"b_1B2M2Y", [CompRef.local_ "foo" "foo_1B2M2Y"]⟩)], 3⟩ := by
  refine ⟨rfl, fun gen file value st => rfl, rfl, by rfl⟩

/-- C3: in the part_000 transform a scope pseudo with an empty
parenthesized argument, or with more than one comma-separated argument
selector, fails with the invalid-scope-pseudo error, while a bare scope
pseudo with no parenthesized payload is kept untouched and the
transform does not fail on it; in the src/index.js walker an argument
that parses to a comma list likewise fails. -/
theorem scope_pseudo_arity (gen : Gen) (file : Option String) (st : Locals)
    (v : String) (hv : v = ":local" ∨ v = ":global") :
    transformNodes gen file false [PNode.pseudo v []] st =
      .ok ([PNode.pseudo v []], st) ∧
    transformNodes gen file false [PNode.pseudo v [[]]] st =
      .error .invalidScopePseudo ∧
    (∀ s1 s2 ss, transformNodes gen file false [PNode.pseudo v (s1 :: s2 :: ss)] st =
      .error .invalidScopePseudo) ∧
    (∀ w arg xs, (w = "local" ∨ w = "global") →
      walkTransform gen file false (Sel.pseudoClass w arg (some (Sel.list xs))) st =
        .error .invalidScopePseudo) := by
  refine ⟨?_, ?_, ?_, ?_⟩
  · rcases hv with rfl | rfl <;> simp [transformNodes] <;> rfl
  · rcases hv with rfl | rfl <;> simp [transformNodes]
  · intro s1 s2 ss
    rcases hv with rfl | rfl <;> simp [transformNodes]
  · intro w arg xs hw
    rcases hw with rfl | rfl <;> simp [walkTransform, isList]

/-- Witness for scope_pseudo_arity at concrete inputs. -/
theorem scope_pseudo_arity_witness :
    transformNodes defaultGen none false [PNode.pseudo ":global" [[], []]] initLocals =
      .error .invalidScopePseudo ∧
    walkTransform defaultGen none false
      (Sel.pseudoClass "local" none (some (Sel.list []))) initLocals =
      .error .invalidScopePseudo :=
  ⟨(scope_pseudo_arity defaultGen none initLocals ":global" (Or.inr rfl)).2.2.1 [] [] [],
   (scope_pseudo_arity defaultGen none initLocals ":global" (Or.inr rfl)).2.2.2
     "local" none [] (Or.inl rfl)⟩

/-- C2: in the selector walk, class and id nodes marked global keep
their names and leave the table untouched, unmarked class and id nodes
have their name replaced by the local of retrieveLocal of the name, a
global pseudo whose argument is a single (non-list) parse is replaced by
that argument transformed with its whole subtree marked, and on the
selector global(.a) .b only b is renamed, a stays literal and the global
pseudo is spliced out of the output tree. -/
theorem global_scope_walker (gen : Gen) (file : Option String) (st : Locals) :
    (∀ name, walkTransform gen file true (Sel.cls name) st = .ok (Sel.cls name, st)) ∧
    (∀ name, walkTransform gen file true (Sel.id name) st = .ok (Sel.id name, st)) ∧
    (∀ name, walkTransform gen file false (Sel.cls name) st =
      .ok (Sel.cls (retrieveLocal gen file name st).1.local_,
        (retrieveLocal gen file name st).2)) ∧
    (∀ name, walkTransform gen file false (Sel.id name) st =
      .ok (Sel.id (retrieveLocal gen file name st).1.local_,
        (retrieveLocal gen file name st).2)) ∧
    (∀ marked arg args, isList args = false →
      walkTransform gen file marked (Sel.pseudoClass "global" arg (some args)) st =
        walkTransform gen file true args st) ∧
    (walkTransform gen file false
        (Sel.complex (Sel.pseudoClass "global" (some ".a") (some (Sel.cls "a")))
          " " (Sel.cls "b")) st =
      .ok (Sel.complex (Sel.cls "a") " "
        (Sel.cls (retrieveLocal gen file "b" st).1.local_),
        (retrieveLocal gen file "b" st).2)) := by
  refine ⟨fun name => by simp [walkTransform], fun name => by simp [walkTransform],
    fun name => by simp [walkTransform], fun name => by simp [walkTransform],
    fun marked arg args hargs => by simp [walkTransform, hargs], ?_⟩
  simp [walkTransform, isList]
  rfl

/-- Witness for global_scope_walker at a concrete input. -/
theorem global_scope_walker_witness :
    walkTransform defaultGen none false
      (Sel.pseudoClass "global" none (some (Sel.cls "x"))) initLocals =
    walkTransform defaultGen none true (Sel.cls "x") initLocals :=
  (global_scope_walker defaultGen none initLocals).2.2.2.2.1 false none (Sel.cls "x") rfl

/-- C10: the animation token lookup consults the prototype-free locals
table: a token with no own entry fails the in test even when it names an
Object.prototype member, so the shorthand handler leaves it unchanged,
whereas the same lookup against a table carrying the default prototype
chain would accept such a token. -/
theorem animation_proto_free (gen : Gen) (file : Option String)
    (entries : List (String × Entry)) (i : Nat) (tok : String)
    (hown : findEntry entries tok = none) :
    jsIn ⟨false, entries, i⟩ tok = false ∧
    animTok ⟨false, entries, i⟩ tok = tok ∧
    (tok ∈ protoMembers → jsIn ⟨true, entries, i⟩ tok = true) ∧
    (findEntry entries "constructor" = none →
      animationHandler gen file "animation" "constructor" ⟨false, entries, i⟩ =
        ("constructor", ⟨false, entries, i⟩)) := by
  have h1 : jsIn ⟨false, entries, i⟩ tok = false := by simp [jsIn, hown]
  refine ⟨h1, by simp [animTok, h1], ?_, ?_⟩
  · intro hmem
    simp [jsIn, hmem]
  · intro hc
    have hji : jsIn ⟨false, entries, i⟩ "constructor" = false := by simp [jsIn, hc]
    have hsplit : jsSplitWs "constructor" = ["constructor"] := rfl
    simp [animationHandler, hsplit, animTok, hji]
    rfl

/-- Witness for animation_proto_free at a concrete input. -/
theorem animation_proto_free_witness :
    jsIn ⟨false, [], 0⟩ "toString" = false ∧
    animTok ⟨false, [], 0⟩ "toString" = "toString" ∧
    jsIn ⟨true, [], 0⟩ "toString" = true ∧
    animationHandler defaultGen none "animation" "constructor" ⟨false, [], 0⟩ =
      ("constructor", ⟨false, [], 0⟩) :=
  ⟨(animation_proto_free defaultGen none [] 0 "toString" rfl).1,
   (animation_proto_free defaultGen none [] 0 "toString" rfl).2.1,
   (animation_proto_free defaultGen none [] 0 "toString" rfl).2.2.1 (by decide),
   (animation_proto_free defaultGen none [] 0 "toString" rfl).2.2.2 rfl⟩

/-- C6: the animation shorthand splits the value on whitespace, maps
every token that equals a registered original name to the local of its
entry, passes every other token through unchanged and creates no
registry entry (the table comes back exactly as it went in), and rejoins
the tokens with single spaces, normalizing irregular whitespace as the
concrete run shows. -/
theorem animation_shorthand (gen : Gen) (file : Option String)
    (entries : List (String × Entry)) (i : Nat) (value : String) :
    animationHandler gen file "animation" value ⟨false, entries, i⟩ =
      (String.intercalate " " ((jsSplitWs value).map (animTok ⟨false, entries, i⟩)),
        ⟨false, entries, i⟩) ∧
    (∀ tok e, findEntry entries tok = some e →
      animTok ⟨false, entries, i⟩ tok = e.local_) ∧
    (∀ tok, findEntry entries tok = none → animTok ⟨false, entries, i⟩ tok = tok) ∧
    jsSplitWs "rotate \t 1.4s  linear" = ["rotate", "1.4s", "linear"] ∧
    animationHandler gen file "animation" "rotate \t 1.4s  linear"
        ⟨false, [("rotate", ⟨"R", []⟩)], 1⟩ =
      ("R 1.4s linear", ⟨false, [("rotate", ⟨"R", []⟩)], 1⟩) := by
  refine ⟨by simp [animationHandler], ?_, ?_, rfl, ?_⟩
  · intro tok e h
    simp [animTok, jsIn, h]
  · intro tok h
    simp [animTok, jsIn, h]
  · have hsplit : jsSplitWs "rotate \t 1.4s  linear" = ["rotate", "1.4s", "linear"] := rfl
    have htok : animTok ⟨false, [("rotate", ⟨"R", []⟩)], 1⟩ "rotate" = "R" := rfl
    have htok2 : animTok ⟨false, [("rotate", ⟨"R", []⟩)], 1⟩ "1.4s" = "1.4s" := rfl
    have htok3 : animTok ⟨false, [("rotate", ⟨"R", []⟩)], 1⟩ "linear" = "linear" := rfl
    simp [animationHandler, hsplit, htok, htok2, htok3]
    rfl

/-- Witness for animation_shorthand at a concrete input. -/
theorem animation_shorthand_witness :
    animTok ⟨false, [("rotate", ⟨"R", []⟩)], 1⟩ "rotate" = "R" :=
  (animation_shorthand defaultGen none [("rotate", ⟨"R", []⟩)] 1 "").2.1
    "rotate" ⟨"R", []⟩ rfl

/-- C5: the long-form generator ignores the ordinal index entirely, is
determined by the original name and the relative file path, hashes the
empty string when the file path is absent, and returns the name, an
underscore and the first six characters of the base64url MD5 digest of
the relative path; with an absent path that digest prefix is the
concrete string 1B2M2Y, the digest of the empty input. -/
theorem generateLongScopedName_spec (relative : String → String)
    (name : String) (file : Option String) (i j : Nat) (f : String) (hf : ¬ f = "") :
    generateLongScopedName relative name file i =
      generateLongScopedName relative name file j ∧
    generateLongScopedName relative name none i =
      name ++ "_" ++ (md5Base64url "").take 6 ∧
    generateLongScopedName relative name (some f) i =
      name ++ "_" ++ (md5Base64url (relative f)).take 6 ∧
    generateLongScopedName relative name none i = name ++ "_1B2M2Y" := by
  have h6 : (md5Base64url "").take 6 = "1B2M2Y" := by decide
  refine ⟨rfl, rfl, by simp [generateLongScopedName, hf], ?_⟩
  show name ++ "_" ++ (md5Base64url "").take 6 = name ++ "_1B2M2Y"
  rw [h6]
  rw [String.append_assoc]
  rfl

/-- Witness for generateLongScopedName_spec at a concrete input. -/
theorem generateLongScopedName_spec_witness :
    generateLongScopedName id "foo" (some "foo.css") 0 =
      "foo" ++ "_" ++ (md5Base64url (id "foo.css")).take 6 :=
  (generateLongScopedName_spec id "foo" (some "foo.css") 0 1 "foo.css"
    (by decide)).2.2.1

/-! Helper lemmas for the composes frame property. -/

theorem retrieveLocal_preserves_absent (gen : Gen) (file : Option String)
    (n k : String) (st : Locals) (hk : findEntry st.entries k = none)
    (hkn : ¬ k = n) :
    findEntry (retrieveLocal gen file n st).2.entries k = none := by
  rcases h : findEntry st.entries n with _ | e
  · have : ¬ n = k := fun hnk => hkn hnk.symm
    simp [retrieveLocal, h, findEntry_append, hk, findEntry, this]
  · simp [retrieveLocal, h, hk]

theorem findEntry_map_push (l : List (String × Entry)) (n k : String)
    (res : CompRef) (hk : findEntry l k = none) :
    findEntry (l.map (fun p =>
      if p.1 = n then (p.1, ⟨p.2.local_, p.2.composes ++ [res]⟩) else p)) k = none := by
  induction l with
  | nil => simp [findEntry]
  | cons p rest ih =>
      rw [findEntry] at hk
      by_cases hp : p.1 = k
      · simp [hp] at hk
      · have hk2 : findEntry rest k = none := by simpa [hp] using hk
        by_cases hpn : p.1 = n
        · rw [List.map_cons, if_pos hpn, findEntry, if_neg hp]
          exact ih hk2
        · rw [List.map_cons, if_neg hpn, findEntry, if_neg hp]
          exact ih hk2

theorem composeIntoNames_preserves_absent (gen : Gen) (file : Option String)
    (res : CompRef) (ns : List String) (st : Locals) (k : String)
    (hk : findEntry st.entries k = none) (hns : k ∉ ns) :
    findEntry (composeIntoNames gen file res ns st).entries k = none := by
  induction ns generalizing st with
  | nil => simpa [composeIntoNames] using hk
  | cons n rest ih =>
      have hkn : ¬ k = n := fun h => hns (h ▸ List.mem_cons_self n rest)
      have hrest : k ∉ rest := fun h => hns (List.mem_cons_of_mem n h)
      rw [composeIntoNames]
      exact ih (pushComposes (retrieveLocal gen file n st).2 n res)
        (findEntry_map_push _ _ _ _
          (retrieveLocal_preserves_absent gen file n k st hk hkn)) hrest

/-- C8: processing composes foo from global builds the global-tagged
reference carrying the literal name only, and never creates a registry
entry keyed foo: when foo has no entry beforehand and is not itself one
of the owning selector names, the table after the declaration still has
no foo entry. -/
theorem composes_from_global_frame (gen : Gen) (file : Option String)
    (ns : List String) (st : Locals)
    (hns : "foo" ∉ ns) (hst : findEntry st.entries "foo" = none) :
    composesExec ("foo from global".toList) = some (.fromGlobal "foo".toList) ∧
    composesDecl gen file (some ns) "foo from global" st =
      .ok (composeIntoNames gen file (CompRef.global "foo") ns st) ∧
    ∃ st2, composesDecl gen file (some ns) "foo from global" st = .ok st2 ∧
      findEntry st2.entries "foo" = none := by
  refine ⟨by decide, rfl, ⟨composeIntoNames gen file (CompRef.global "foo") ns st,
    rfl, composeIntoNames_preserves_absent gen file _ ns st "foo" hst hns⟩⟩

/-- Witness for composes_from_global_frame at a concrete input. -/
theorem composes_from_global_frame_witness :
    ∃ st2, composesDecl defaultGen none (some ["a"]) "foo from global" initLocals =
        .ok st2 ∧ findEntry st2.entries "foo" = none :=
  (composes_from_global_frame defaultGen none ["a"] initLocals
    (by decide) rfl).2.2

/-! Helper lemmas on takeWhile and dropWhile for the COMPOSES_RE
grammar equivalence. -/

theorem takeWhile_prefix_append (p : Char → Bool) (l1 : List Char) (c : Char)
    (l2 : List Char) (h1 : ∀ a ∈ l1, p a = true) (hc : p c = false) :
    (l1 ++ c :: l2).takeWhile p = l1 := by
  induction l1 with
  | nil => simp [List.takeWhile_cons, hc]
  | cons a t ih =>
      have ha := h1 a (List.mem_cons_self a t)
      have ht : ∀ x ∈ t, p x = true := fun x hx => h1 x (List.mem_cons_of_mem a hx)
      simp [List.takeWhile_cons, ha, ih ht]

theorem dropWhile_prefix_append (p : Char → Bool) (l1 : List Char) (c : Char)
    (l2 : List Char) (h1 : ∀ a ∈ l1, p a = true) (hc : p c = false) :
    (l1 ++ c :: l2).dropWhile p = c :: l2 := by
  induction l1 with
  | nil => simp [List.dropWhile_cons, hc]
  | cons a t ih =>
      have ha := h1 a (List.mem_cons_self a t)
      have ht : ∀ x ∈ t, p x = true := fun x hx => h1 x (List.mem_cons_of_mem a hx)
      simp [List.dropWhile_cons, ha, ih ht]

theorem takeWhile_all (p : Char → Bool) (l : List Char)
    (h : ∀ a ∈ l, p a = true) : l.takeWhile p = l := by
  induction l with
  | nil => rfl
  | cons a t ih =>
      have ht : ∀ x ∈ t, p x = true := fun x hx => h x (List.mem_cons_of_mem a hx)
      simp [List.takeWhile_cons, h a (List.mem_cons_self a t), ih ht]

theorem dropWhile_all (p : Char → Bool) (l : List Char)
    (h : ∀ a ∈ l, p a = true) : l.dropWhile p = [] := by
  induction l with
  | nil => rfl
  | cons a t ih =>
      have ht : ∀ x ∈ t, p x = true := fun x hx => h x (List.mem_cons_of_mem a hx)
      simp [List.dropWhile_cons, h a (List.mem_cons_self a t), ih ht]

theorem dropWhile_head_false (p : Char → Bool) (l : List Char) (c : Char)
    (t : List Char) (h : l.dropWhile p = c :: t) : p c = false := by
  induction l with
  | nil => simp [List.dropWhile] at h
  | cons a r ih =>
      rw [List.dropWhile_cons] at h
      by_cases hp : p a = true
      · exact ih (by simpa [hp] using h)
      · rw [if_neg hp] at h
        cases h
        simpa using hp

theorem quote_not_ws (q : Char) (hq : isQuoteChar q = true) :
    q.isWhitespace = false := by
  rcases (by simpa [isQuoteChar] using hq : q = Char.ofNat 39 ∨ q = Char.ofNat 34)
      with rfl | rfl <;> decide

theorem take_from_append (x : List Char) :
    ("from".toList ++ x).take 4 = "from".toList := rfl

theorem drop_from_append (x : List Char) :
    ("from".toList ++ x).drop 4 = x := rfl

/-- C7 counterexample: the value composes of the name a from a quoted
specifier consisting of one newline character satisfies the grammar as
the claim words it (the specifier is wrapped in matching single quotes),
yet COMPOSES_RE rejects the value, because the regex dot matches no line
terminator; acceptance is therefore not equivalent to the claimed
grammar. -/
theorem composes_grammar_counterexample :
    ComposesGrammarSpec ("a from ".toList ++ [Char.ofNat 39, Char.ofNat 10, Char.ofNat 39]) ∧
    composesExec ("a from ".toList ++ [Char.ofNat 39, Char.ofNat 10, Char.ofNat 39]) = none := by
  constructor
  · refine Or.inr (Or.inr ⟨['a'], [' '], [' '], Char.ofNat 39, [Char.ofNat 10],
      ⟨by decide, by decide⟩, ⟨by decide, by decide⟩, ⟨by decide, by decide⟩,
      by decide, by decide, by decide⟩)
  · decide

/-- Evaluation of composesExec on a value decomposed as a name, a
whitespace run, the literal from, a whitespace run and a specifier with
a non-whitespace first character: it reaches the specifier
alternation. -/
theorem composesExec_from_form (name : List Char) (c1 : Char) (w1t : List Char)
    (c2 : Char) (w2t : List Char) (spec : List Char) (d : Char) (spect : List Char)
    (hname : name ≠ []) (hnAll : ∀ a ∈ name, a.isWhitespace = false)
    (hc1 : c1.isWhitespace = true) (hw1t : ∀ a ∈ w1t, a.isWhitespace = true)
    (hc2 : c2.isWhitespace = true) (hw2t : ∀ a ∈ w2t, a.isWhitespace = true)
    (hspec : spec = d :: spect) (hd : d.isWhitespace = false) :
    composesExec (name ++ (c1 :: w1t) ++ "from".toList ++ (c2 :: w2t) ++ spec) =
      matchSpecifier name spec := by
  subst hspec
  have hF : "from".toList = 'f' :: "rom".toList := rfl
  rw [composesExec]
  simp only [hF, List.cons_append, List.append_assoc]
  rw [takeWhile_prefix_append notWs name c1 _
    (fun a ha => by simp [notWs, hnAll a ha]) (by simp [notWs, hc1])]
  rw [dropWhile_prefix_append notWs name c1 _
    (fun a ha => by simp [notWs, hnAll a ha]) (by simp [notWs, hc1])]
  rw [if_neg (by simpa [List.isEmpty_iff] using hname)]
  rw [if_neg (by simp)]
  have h1 : ∀ a ∈ c1 :: w1t, Char.isWhitespace a = true := by
    intro a ha
    rcases List.mem_cons.mp ha with rfl | ha2
    exacts [hc1, hw1t a ha2]
  have hdw1 : List.dropWhile Char.isWhitespace
      (c1 :: (w1t ++ 'f' :: ("rom".toList ++ (c2 :: (w2t ++ d :: spect))))) =
      'f' :: ("rom".toList ++ (c2 :: (w2t ++ d :: spect))) := by
    simpa [List.cons_append] using dropWhile_prefix_append Char.isWhitespace
      (c1 :: w1t) 'f' ("rom".toList ++ (c2 :: (w2t ++ d :: spect))) h1 (by decide)
  rw [hdw1]
  rw [show ('f' :: ("rom".toList ++ (c2 :: (w2t ++ d :: spect)))).take 4 =
    'f' :: "rom".toList from rfl]
  rw [if_pos rfl]
  rw [show ('f' :: ("rom".toList ++ (c2 :: (w2t ++ d :: spect)))).drop 4 =
    c2 :: (w2t ++ d :: spect) from rfl]
  dsimp only
  rw [if_pos hc2]
  have h2 : ∀ a ∈ c2 :: w2t, Char.isWhitespace a = true := by
    intro a ha
    rcases List.mem_cons.mp ha with rfl | ha2
    exacts [hc2, hw2t a ha2]
  have hdw2 : List.dropWhile Char.isWhitespace (c2 :: (w2t ++ d :: spect)) =
      d :: spect := by
    simpa [List.cons_append] using dropWhile_prefix_append Char.isWhitespace
      (c2 :: w2t) d spect h2 hd
  rw [hdw2]

/-- C7 amended: COMPOSES_RE accepts a composes value exactly when it is
a nonempty run of non-whitespace characters alone, or such a name
followed by whitespace, the literal from, whitespace and either the
literal global or a specifier of one or more characters, none a line
terminator, wrapped in matching single or double quotes; every other
value, an empty value and a mismatched quote pair included, is rejected,
upon which the handler fails with the invalid-composes error. -/
theorem composes_grammar_amended (v : List Char) :
    (composesExec v).isSome = true ↔ ComposesGrammarAmended v := by
  constructor
  · intro h
    rw [composesExec] at h
    by_cases h1 : (v.takeWhile notWs).isEmpty
    · rw [if_pos h1] at h
      simp at h
    · rw [if_neg h1] at h
      have hname : NameChars (v.takeWhile notWs) :=
        ⟨by simpa [List.isEmpty_iff] using h1,
         fun c hc => by simpa [notWs] using List.mem_takeWhile_imp hc⟩
      by_cases h2 : (v.dropWhile notWs).isEmpty
      · left
        have hv : v = v.takeWhile notWs := by
          conv_lhs => rw [← List.takeWhile_append_dropWhile notWs v]
          rw [List.isEmpty_iff.mp h2]
          simp
        rw [hv]
        exact hname
      · rw [if_neg h2] at h
        dsimp only at h
        split at h
        next h4 =>
          split at h
          next c2 t2 hr2 =>
            split at h
            next hc2 =>
              -- abbreviations
              set name := v.takeWhile notWs with hname0
              set rest := v.dropWhile notWs with hrest0
              set rest1 := rest.dropWhile Char.isWhitespace with hrest10
              set rest2 := rest1.drop 4 with hrest20
              set w1 := rest.takeWhile Char.isWhitespace with hw10
              set w2 := rest2.takeWhile Char.isWhitespace with hw20
              set spec := rest2.dropWhile Char.isWhitespace with hspec0
              -- whitespace runs are nonempty with all-whitespace members
              obtain ⟨rc, rt, hrc⟩ := List.exists_cons_of_ne_nil
                (by simpa [List.isEmpty_iff] using h2 : rest ≠ [])
              have hrcws : rc.isWhitespace = true := by
                have := dropWhile_head_false notWs v rc rt (hrest0 ▸ hrc)
                simpa [notWs] using this
              have hw1 : WsChars w1 := by
                constructor
                · rw [hw10, hrc, List.takeWhile_cons, if_pos hrcws]
                  simp
                · exact fun c hc => List.mem_takeWhile_imp hc
              have hw2 : WsChars w2 := by
                constructor
                · rw [hw20, hr2, List.takeWhile_cons, if_pos hc2]
                  simp
                · exact fun c hc => List.mem_takeWhile_imp hc
              -- the decomposition of v
              have e1 : name ++ rest = v := List.takeWhile_append_dropWhile notWs v
              have e2 : w1 ++ rest1 = rest := List.takeWhile_append_dropWhile _ rest
              have e3 : "from".toList ++ rest2 = rest1 := by
                conv_rhs => rw [← List.take_append_drop 4 rest1]
                rw [h4]
              have e4 : w2 ++ spec = rest2 := List.takeWhile_append_dropWhile _ rest2
              clear_value spec
              rw [matchSpecifier.eq_def] at h
              by_cases hg : spec = "global".toList
              · right; left
                refine ⟨name, w1, w2, hname, hw1, hw2, ?_⟩
                rw [hg] at e4
                rw [← e4] at e3
                rw [← e3] at e2
                rw [← e2] at e1
                simpa [List.append_assoc] using e1.symm
              · rw [if_neg hg] at h
                rcases hspecC : spec with _ | ⟨q, rst⟩
                · rw [hspecC] at h
                  dsimp only at h
                  simp at h
                · rw [hspecC] at h
                  rw [hspecC] at e4
                  dsimp only at h
                  split at h
                  next hcond =>
                    simp only [Bool.and_eq_true] at hcond
                    obtain ⟨⟨⟨hq, hlast⟩, hne⟩, hall⟩ := hcond
                    have hrne : rst ≠ [] := by
                      intro hh
                      rw [hh] at hlast
                      exact absurd (of_decide_eq_true hlast) (by simp)
                    have hsp : rst.dropLast ++ [rst.getLast hrne] = rst :=
                      List.dropLast_append_getLast hrne
                    have hql : rst.getLast hrne = q := by
                      have hl := of_decide_eq_true hlast
                      rw [List.getLast?_eq_getLast rst hrne] at hl
                      exact Option.some_injective _ hl
                    have hrst : rst = rst.dropLast ++ [q] := by
                      rw [← hql]
                      exact hsp.symm
                    right; right
                    refine ⟨name, w1, w2, q, rst.dropLast, hname, hw1, hw2, hq,
                      by simpa [List.isEmpty_eq_false] using hne, ?_, ?_⟩
                    · intro c hc
                      have := (List.all_eq_true.mp hall) c hc
                      simpa using this
                    · rw [hrst] at e4
                      rw [← e4] at e3
                      rw [← e3] at e2
                      rw [← e2] at e1
                      simpa [List.append_assoc] using e1.symm
                  next hcond => simp at h
            next hc2 => simp at h
          next hr2 => simp at h
        next h4 => simp at h
  · intro h
    rcases h with h | h | h
    · rcases h with ⟨hne, hall⟩
      have hTW : v.takeWhile notWs = v :=
        takeWhile_all _ _ (fun a ha => by simp [notWs, hall a ha])
      have hDW : v.dropWhile notWs = [] :=
        dropWhile_all _ _ (fun a ha => by simp [notWs, hall a ha])
      rw [composesExec, hTW, hDW]
      rw [if_neg (by simpa [List.isEmpty_iff] using hne)]
      simp
    · obtain ⟨name, w1, w2, hn, hw1, hw2, hveq⟩ := h
      obtain ⟨c1, w1t, rfl⟩ := List.exists_cons_of_ne_nil hw1.1
      obtain ⟨c2, w2t, rfl⟩ := List.exists_cons_of_ne_nil hw2.1
      subst hveq
      rw [composesExec_from_form name c1 w1t c2 w2t "global".toList 'g' "lobal".toList
        hn.1 hn.2 (hw1.2 c1 (List.mem_cons_self _ _))
        (fun a ha => hw1.2 a (List.mem_cons_of_mem _ ha))
        (hw2.2 c2 (List.mem_cons_self _ _))
        (fun a ha => hw2.2 a (List.mem_cons_of_mem _ ha)) rfl (by decide)]
      simp [matchSpecifier]
    · obtain ⟨name, w1, w2, q, body, hn, hw1, hw2, hq, hbody, hlt, hveq⟩ := h
      obtain ⟨c1, w1t, rfl⟩ := List.exists_cons_of_ne_nil hw1.1
      obtain ⟨c2, w2t, rfl⟩ := List.exists_cons_of_ne_nil hw2.1
      subst hveq
      rw [composesExec_from_form name c1 w1t c2 w2t (q :: (body ++ [q])) q (body ++ [q])
        hn.1 hn.2 (hw1.2 c1 (List.mem_cons_self _ _))
        (fun a ha => hw1.2 a (List.mem_cons_of_mem _ ha))
        (hw2.2 c2 (List.mem_cons_self _ _))
        (fun a ha => hw2.2 a (List.mem_cons_of_mem _ ha)) rfl (quote_not_ws q hq)]
      have hgneq : ¬(q :: (body ++ [q]) = "global".toList) := by
        intro hh
        have hqg : q = 'g' := by
          have := congrArg List.head? hh
          simpa using this
        rcases (by simpa [isQuoteChar] using hq : q = Char.ofNat 39 ∨ q = Char.ofNat 34)
            with h39 | h34
        · rw [h39] at hqg
          exact absurd hqg (by decide)
        · rw [h34] at hqg
          exact absurd hqg (by decide)
      rw [matchSpecifier.eq_def]
      rw [if_neg hgneq]
      dsimp only
      have hall2 : ∀ c ∈ body, (!isLineTerm c) = true := fun c hc => by
        simpa using hlt c hc
      have hcnd : (isQuoteChar q && decide ((body ++ [q]).getLast? = some q) &&
          !(body ++ [q]).dropLast.isEmpty &&
          (body ++ [q]).dropLast.all fun c => !isLineTerm c) = true := by
        simp [hq, List.getLast?_concat, List.dropLast_concat,
          List.isEmpty_eq_false.mpr hbody, List.all_eq_true, hall2]
        exact hlt
      rw [if_pos hcnd]
      simp


end PostcssModules









